import Mathlib

/-
Formal model of the vue-flow geometry / graph-element utilities
(src/unnamed/part_000) and of the node-drag composable
(src/packages/core/src/composables/useDrag.ts), with theorems checking the
documented behaviour.

Conventions of the embedding:
* JS numbers are modelled as exact rationals.  The bounding-box fold of
  getRectOfNodes relies on the IEEE infinities, so the box/rect converters
  are generic and are instantiated there at the extended type ENum.
* A JS value that may be undefined is an Option; a string tested for
  truthiness is falsy exactly on the empty string, and a missing
  source/target on an edge or connection is the empty string.
* console.warn is modelled by a Bool recording whether a diagnostic was
  reported; the edge operations return (result, warned).
* The drag composable is modelled as a transition system over its closure
  state (dragStarted, lastPos, dragItems); callbacks are emitted into a
  list.  Euclidean-distance comparisons against the drag threshold are
  stated on squares, which is equivalent for the nonnegative thresholds
  the code is configured with.
-/

set_option maxHeartbeats 1000000

namespace VF

/-! ### Extended numbers for the infinite empty box -/

inductive ENum where
  | nan
  | negInf
  | fin (q : ℚ)
  | posInf
deriving DecidableEq

def ENum.add : ENum → ENum → ENum
  | .nan, _ => .nan
  | _, .nan => .nan
  | .posInf, .negInf => .nan
  | .negInf, .posInf => .nan
  | .posInf, _ => .posInf
  | _, .posInf => .posInf
  | .negInf, _ => .negInf
  | _, .negInf => .negInf
  | .fin a, .fin b => .fin (a + b)

def ENum.sub : ENum → ENum → ENum
  | .nan, _ => .nan
  | _, .nan => .nan
  | .posInf, .posInf => .nan
  | .negInf, .negInf => .nan
  | .posInf, _ => .posInf
  | .negInf, _ => .negInf
  | .fin _, .posInf => .negInf
  | .fin _, .negInf => .posInf
  | .fin a, .fin b => .fin (a - b)

def ENum.emin : ENum → ENum → ENum
  | .nan, _ => .nan
  | _, .nan => .nan
  | .negInf, _ => .negInf
  | _, .negInf => .negInf
  | .posInf, b => b
  | a, .posInf => a
  | .fin a, .fin b => .fin (min a b)

def ENum.emax : ENum → ENum → ENum
  | .nan, _ => .nan
  | _, .nan => .nan
  | .posInf, _ => .posInf
  | _, .posInf => .posInf
  | .negInf, b => b
  | a, .negInf => a
  | .fin a, .fin b => .fin (max a b)

instance : Add ENum := ⟨ENum.add⟩
instance : Sub ENum := ⟨ENum.sub⟩
instance : Min ENum := ⟨ENum.emin⟩
instance : Max ENum := ⟨ENum.emax⟩

/-! ### Geometry kernel (part_000 lines 37-42, 198-240) -/

structure XYPosition where
  x : ℚ
  y : ℚ
deriving DecidableEq

structure XYZPosition where
  x : ℚ
  y : ℚ
  z : ℚ
deriving DecidableEq

structure Rect (α : Type) where
  x : α
  y : α
  width : α
  height : α
deriving DecidableEq

structure Box (α : Type) where
  x : α
  y : α
  x2 : α
  y2 : α
deriving DecidableEq

/-- Transform triple [tx, ty, zoom]. -/
structure Transform where
  tx : ℚ
  ty : ℚ
  zoom : ℚ
deriving DecidableEq

/-- [[minX, minY], [maxX, maxY]] -/
abbrev CoordinateExtent := (ℚ × ℚ) × (ℚ × ℚ)

def clamp (val lo hi : ℚ) : ℚ := min (max val lo) hi

def clampPosition (position : XYPosition) (extent : CoordinateExtent) : XYPosition :=
  ⟨clamp position.x extent.1.1 extent.2.1, clamp position.y extent.1.2 extent.2.2⟩

def getBoundsOfBoxes {α : Type} [Min α] [Max α] (box1 box2 : Box α) : Box α :=
  ⟨min box1.x box2.x, min box1.y box2.y, max box1.x2 box2.x2, max box1.y2 box2.y2⟩

def rectToBox {α : Type} [Add α] (r : Rect α) : Box α :=
  ⟨r.x, r.y, r.x + r.width, r.y + r.height⟩

def boxToRect {α : Type} [Sub α] (b : Box α) : Rect α :=
  ⟨b.x, b.y, b.x2 - b.x, b.y2 - b.y⟩

def getBoundsofRects {α : Type} [Min α] [Max α] [Add α] [Sub α] (rect1 rect2 : Rect α) : Rect α :=
  boxToRect (getBoundsOfBoxes (rectToBox rect1) (rectToBox rect2))

/-! ### Graph nodes as seen by the geometry queries -/

/-- A resolved graph node restricted to the fields the geometry queries
read: position, dimensions (null until first measurement, modelled as
Option), the selectable flag (undefined unless set) and the dragging flag. -/
structure GNode where
  id : String
  posX : ℚ
  posY : ℚ
  dimW : Option ℚ
  dimH : Option ℚ
  selectable : Option Bool
  dragging : Bool
deriving DecidableEq

/-- JS coerces null to 0 in arithmetic; this is the value a null dimension
contributes to x + width. -/
def nullNum : Option ℚ → ℚ
  | none => 0
  | some q => q

def nodeBoxE (n : GNode) : Box ENum :=
  rectToBox ⟨.fin n.posX, .fin n.posY, .fin (nullNum n.dimW), .fin (nullNum n.dimH)⟩

/-- getRectOfNodes: fold the box union over every node, starting from the
infinite empty box, then convert back to a rect (part_000 lines 221-235). -/
def getRectOfNodes (nodes : List GNode) : Rect ENum :=
  boxToRect (nodes.foldl (fun currBox n => getBoundsOfBoxes currBox (nodeBoxE n))
    ⟨.posInf, .posInf, .negInf, .negInf⟩)

def graphPosToZoomedPos (pos : XYPosition) (t : Transform) : XYPosition :=
  ⟨pos.x * t.zoom + t.tx, pos.y * t.zoom + t.ty⟩

/-- The query rect converted from screen to world space (getNodesInside
lines 243-248). -/
def worldRBox (rect : Rect ℚ) (t : Transform) : Box ℚ :=
  rectToBox
    ⟨(rect.x - t.tx) / t.zoom, (rect.y - t.ty) / t.zoom, rect.width / t.zoom, rect.height / t.zoom⟩

/-- The node's box from its position spread with its dimensions; a null
width/height contributes 0 to x + width (JS null coercion). -/
def nodeBoxQ (node : GNode) : Box ℚ :=
  rectToBox ⟨node.posX, node.posY, nullNum node.dimW, nullNum node.dimH⟩

/-- The filter body of getNodesInside (part_000 lines 250-270).  The node
box and overlap are computed before the null-dimension check, exactly as
in the code. -/
def insidePred (rBox : Box ℚ) (partially : Bool) (node : GNode) : Bool :=
  if node.selectable = some false then false
  else
    let nBox := nodeBoxQ node
    let xOverlap := max 0 (min rBox.x2 nBox.x2 - max rBox.x nBox.x)
    let yOverlap := max 0 (min rBox.y2 nBox.y2 - max rBox.y nBox.y)
    let overlappingArea : ℚ := ((⌈xOverlap * yOverlap⌉ : ℤ) : ℚ)
    if node.dimW = none ∨ node.dimH = none ∨ node.dragging = true then true
    else if partially = true then decide (overlappingArea > 0)
    else decide (overlappingArea ≥ nullNum node.dimW * nullNum node.dimH)

def getNodesInside (nodes : List GNode) (rect : Rect ℚ) (t : Transform) (partially : Bool) :
    List GNode :=
  nodes.filter (insidePred (worldRBox rect t) partially)

/-- The overlap area between the node box and the world-space query box as
the specification describes it: no ceiling applied. -/
def specOverlapArea (node : GNode) (rect : Rect ℚ) (t : Transform) : ℚ :=
  let rBox := worldRBox rect t
  let nBox := nodeBoxQ node
  max 0 (min rBox.x2 nBox.x2 - max rBox.x nBox.x) *
    max 0 (min rBox.y2 nBox.y2 - max rBox.y nBox.y)

/-- getTransformForBounds (part_000 lines 293-315).  The optional offset
components default to 0 via the ?? operator. -/
def getTransformForBounds (bounds : Rect ℚ) (width height minZoom maxZoom padding : ℚ)
    (offset : Option ℚ × Option ℚ) : Transform :=
  let xZoom := width / (bounds.width * (1 + padding))
  let yZoom := height / (bounds.height * (1 + padding))
  let zoom := min xZoom yZoom
  let clampedZoom := clamp zoom minZoom maxZoom
  let boundsCenterX := bounds.x + bounds.width / 2
  let boundsCenterY := bounds.y + bounds.height / 2
  ⟨width / 2 - boundsCenterX * clampedZoom + (offset.1.getD 0),
   height / 2 - boundsCenterY * clampedZoom + (offset.2.getD 0),
   clampedZoom⟩

/-! ### Graph element model (part_000 lines 52-140) -/

structure NodeEl where
  id : String
deriving DecidableEq

structure Edge where
  id : String
  source : String
  target : String
  sourceHandle : Option String
  targetHandle : Option String
  /-- representative non-endpoint payload field carried by an edge -/
  label : Option String
deriving DecidableEq

structure Connection where
  source : String
  target : String
  sourceHandle : Option String
  targetHandle : Option String
deriving DecidableEq

inductive Element where
  | node (n : NodeEl)
  | edge (e : Edge)
deriving DecidableEq

/-- An element is an edge iff it carries source and target fields. -/
def isEdge : Element → Bool
  | .edge _ => true
  | .node _ => false

def elemId : Element → String
  | .node n => n.id
  | .edge e => e.id

/-- element.source: undefined (none) on a node. -/
def sourceOf : Element → Option String
  | .node _ => none
  | .edge e => some e.source

/-- element.target: undefined (none) on a node. -/
def targetOf : Element → Option String
  | .node _ => none
  | .edge e => some e.target

inductive Dir where
  | source
  | target
deriving DecidableEq

/-- element[dir] as used in getConnectedElements; on a node the JS
expression isEdge(e) && e[dir] yields false, which never compares equal to
a string id, modelled as none. -/
def elemDirField (el : Element) (dir : Dir) : Option String :=
  match el, dir with
  | .edge e, .source => some e.source
  | .edge e, .target => some e.target
  | .node _, _ => none

/-- getConnectedElements (part_000 lines 61-65).  The guard
`if (!isNode(node)) return []` is vacuous here because the parameter is a
node by construction.  Note the filter tests e.source for both
directions. -/
def getConnectedElements (node : NodeEl) (elements : List Element) (dir : Dir) : List Element :=
  let ids := (elements.filter (fun e => isEdge e && sourceOf e == some node.id)).map
    (fun e => elemDirField e dir)
  elements.filter (fun e => ids.contains (some (elemId e)))

def getOutgoers (node : NodeEl) (elements : List Element) : List Element :=
  getConnectedElements node elements .target

def getIncomers (node : NodeEl) (elements : List Element) : List Element :=
  getConnectedElements node elements .source

/-- The predicate of removeElements (part_000 lines 72-75); a node is
destructured with the sentinel values target = source = empty string. -/
def shouldRemoveFn (nodeIdsToRemove : List String) (element : Element) : Bool :=
  let ts : String × String :=
    match element with
    | .edge e => (e.target, e.source)
    | .node _ => ("", "")
  nodeIdsToRemove.contains (elemId element) || nodeIdsToRemove.contains ts.1 ||
    nodeIdsToRemove.contains ts.2

/-- The forEach loop of removeElements with its in-loop splice: the length
is captured once (fuel), an index past the shrunk array is skipped, and a
splice at the visited index removes that element (shifting the next one
into the skipped slot), exactly the ECMAScript forEach semantics. -/
def forEachSplice (p : Element → Bool) : Nat → Nat → List Element → List Element
  | 0, _, arr => arr
  | n + 1, k, arr =>
    if h : k < arr.length then
      if p arr[k] then forEachSplice p n (k + 1) (arr.eraseIdx k)
      else forEachSplice p n (k + 1) arr
    else forEachSplice p n (k + 1) arr

/-- removeElements (part_000 lines 70-80): mutate the collection with the
forEach/splice loop, then return the filtered remainder. -/
def removeElements (elementsToRemove : List Element) (elements : List Element) : List Element :=
  let nodeIdsToRemove := elementsToRemove.map elemId
  let arr := forEachSplice (shouldRemoveFn nodeIdsToRemove) elements.length 0 elements
  arr.filter (fun e => !shouldRemoveFn nodeIdsToRemove e)

/-- The claim's description of removeElements: keep exactly the elements
whose id is not in the removal id set and that are not edges whose source
or target is in that set. -/
def specKeep (ids : List String) (e : Element) : Bool :=
  !(ids.contains (elemId e)) &&
    !(match e with
      | .edge ed => ids.contains ed.source || ids.contains ed.target
      | .node _ => false)

def specRemoveElements (elementsToRemove : List Element) (elements : List Element) :
    List Element :=
  elements.filter (specKeep (elementsToRemove.map elemId))

/-- Template-literal interpolation of an optional handle: undefined prints
as the string undefined. -/
def strOrUndefined : Option String → String
  | none => "undefined"
  | some s => s

/-- getEdgeId (part_000 lines 82-83). -/
def getEdgeId (c : Connection) : String :=
  "vueflow__edge-" ++ c.source ++ strOrUndefined c.sourceHandle ++ "-" ++ c.target ++
    strOrUndefined c.targetHandle

/-- JS falsiness of an optional string: undefined and the empty string. -/
def falsy : Option String → Bool
  | none => true
  | some s => s == ""

/-- connectionExists (part_000 lines 85-94). -/
def connectionExists (edge : Edge) (elements : List Element) : Bool :=
  elements.any fun el =>
    match el with
    | .node _ => false
    | .edge e =>
      e.source == edge.source && e.target == edge.target &&
        (e.sourceHandle == edge.sourceHandle || (falsy e.sourceHandle && falsy edge.sourceHandle)) &&
        (e.targetHandle == edge.targetHandle || (falsy e.targetHandle && falsy edge.targetHandle))

/-- addEdge takes an Edge (with id) or a bare Connection. -/
inductive EdgeParam where
  | edge (e : Edge)
  | conn (c : Connection)
deriving DecidableEq

def EdgeParam.source : EdgeParam → String
  | .edge e => e.source
  | .conn c => c.source

def EdgeParam.target : EdgeParam → String
  | .edge e => e.target
  | .conn c => c.target

/-- addEdge (part_000 lines 96-114).  Returns (result, warned).  The
function first pushes the new edge into the collection and then returns
the spread of that (already extended) collection with the edge appended
again, so the returned collection holds the new edge twice. -/
def addEdge (edgeParams : EdgeParam) (elements : List Element) : List Element × Bool :=
  if edgeParams.source = "" ∨ edgeParams.target = "" then (elements, true)
  else
    let edge : Edge :=
      match edgeParams with
      | .edge e => e
      | .conn c => ⟨getEdgeId c, c.source, c.target, c.sourceHandle, c.targetHandle, none⟩
    if connectionExists edge elements then (elements, false)
    else
      let elements2 := elements ++ [Element.edge edge]
      (elements2 ++ [Element.edge edge], false)

/-- elements.find of the first edge with the old id combined with
elements.indexOf of that found object: with find returning the first
match, indexOf resolves to the same index. -/
def findEdgeIdx (oldId : String) : List Element → Option Nat
  | [] => none
  | e :: rest =>
    if isEdge e && elemId e == oldId then some 0
    else (findEdgeIdx oldId rest).map (fun i => i + 1)

/-- updateEdge (part_000 lines 116-140).  Returns (result, warned).  The
code splices the new edge over the found old edge in place and then also
appends it to the filtered collection, so the new edge ends up twice in
the returned collection (unless its derived id coincides with the old
id). -/
def updateEdge (oldEdge : Edge) (newConnection : Connection) (elements : List Element) :
    List Element × Bool :=
  if newConnection.source = "" ∨ newConnection.target = "" then (elements, true)
  else
    match findEdgeIdx oldEdge.id elements with
    | none => (elements, true)
    | some idx =>
      let edge : Edge :=
        { oldEdge with
          id := getEdgeId newConnection
          source := newConnection.source
          target := newConnection.target
          sourceHandle := newConnection.sourceHandle
          targetHandle := newConnection.targetHandle }
      let spliced := elements.set idx (Element.edge edge)
      (spliced.filter (fun e => !(elemId e == oldEdge.id)) ++ [Element.edge edge], false)

/-! ### Nested position resolver (part_000 lines 317-327) -/

/-- A node together with its (finite, acyclic) parent chain: position is
the local position, z the declared stacking index
(computedPosition.z as seeded by parseNode). -/
inductive PNode where
  | root (posX posY z : ℚ)
  | child (posX posY z : ℚ) (parentNode : PNode)
deriving DecidableEq

def PNode.posX : PNode → ℚ
  | .root x _ _ => x
  | .child x _ _ _ => x

def PNode.posY : PNode → ℚ
  | .root _ y _ => y
  | .child _ y _ _ => y

def PNode.z : PNode → ℚ
  | .root _ _ z => z
  | .child _ _ z _ => z

/-- calculateXYZPosition (part_000 lines 317-327): accumulate the parent
positions; at each step the z accumulator is replaced by comparing the
parent's declared z with the current node's declared z. -/
def calculateXYZPosition : PNode → XYZPosition → XYZPosition
  | .root _ _ _, result => result
  | .child _ _ zc p, result =>
    calculateXYZPosition p
      ⟨result.x + p.posX, result.y + p.posY, if p.z > zc then p.z + 1 else zc⟩

/-- Modelled from the spec: the store code seeding the recursion is not
under src; section 4.2 states that a node with no parent resolves to its
own local position and declared index, so the recursion is seeded with
exactly those. -/
def resolveXYZ (n : PNode) : XYZPosition :=
  calculateXYZPosition n ⟨n.posX, n.posY, n.z⟩

/-- Sum of the local x positions of the strict ancestors (proof helper). -/
def ancSumX : PNode → ℚ
  | .root _ _ _ => 0
  | .child _ _ _ p => p.posX + ancSumX p

/-- Sum of the local y positions of the strict ancestors (proof helper). -/
def ancSumY : PNode → ℚ
  | .root _ _ _ => 0
  | .child _ _ _ p => p.posY + ancSumY p

/-! ### Drag session engine (useDrag.ts lines 82-264)

The closure state of useDrag is (dragStarted, lastPos, dragItems); the
lifecycle callbacks onClick/onStart/onDrag/onStop are emitted into a list.
Grid snapping is off (snapToGrid false), so the snapped pointer
coordinates coincide with the raw ones; auto-pan is not modelled (the
claims under study concern the threshold state machine). -/

structure DragItem where
  position : XYPosition
  distance : XYPosition
  extent : CoordinateExtent
deriving DecidableEq

/-- Modelled from the spec: getDragItems and calcNextPosition live outside
src.  Section 4.4: each drag item records its fixed offset (distance) from
the initial pointer position; a candidate position pointer - distance is
clamped to the item's movement extent.  The item set for a gesture is
produced by the config's getItems at the initial pointer position. -/
structure DragConfig where
  threshold : ℚ
  getItems : XYPosition → List DragItem

structure DragState where
  dragStarted : Bool
  lastPos : XYPosition
  dragItems : List DragItem
deriving DecidableEq

inductive DragCB where
  | click
  | start
  | drag
  | stop
deriving DecidableEq

inductive DragEv where
  | down (p : XYPosition)
  | move (p : XYPosition)
  | up (p : XYPosition)
deriving DecidableEq

/-- Squared euclidean distance: the code computes
Math.sqrt(x*x + y*y) and compares it with the (nonnegative) threshold;
all comparisons are stated on squares. -/
def d2 (pos lastPos : XYPosition) : ℚ :=
  (pos.x - lastPos.x) * (pos.x - lastPos.x) + (pos.y - lastPos.y) * (pos.y - lastPos.y)

/-- startDrag (useDrag.ts lines 151-187): records the pointer position,
computes the drag items once and fires the start callback when the item
set is nonempty.  Selection side effects are outside the claims. -/
def startDrag (cfg : DragConfig) (pos : XYPosition) (_s : DragState) :
    DragState × List DragCB :=
  let items := cfg.getItems pos
  (⟨true, pos, items⟩, if items = [] then [] else [DragCB.start])

/-- updateNodes (useDrag.ts lines 82-128): recompute every item's position
(clamped to its extent), remember the pointer as lastPos, and fire the
drag callback only when some resolved position actually changed. -/
def updateNodes (pos : XYPosition) (s : DragState) : DragState × List DragCB :=
  let step : DragItem → DragItem := fun n =>
    { n with position := clampPosition ⟨pos.x - n.distance.x, pos.y - n.distance.y⟩ n.extent }
  (⟨s.dragStarted, pos, s.dragItems.map step⟩,
    if ∃ n ∈ s.dragItems, n.position ≠ (step n).position then [DragCB.drag] else [])

/-- eventStart (useDrag.ts lines 189-202): with a zero threshold the drag
starts immediately; lastPos is then (re)recorded from the event. -/
def eventStart (cfg : DragConfig) (pos : XYPosition) (s : DragState) :
    DragState × List DragCB :=
  let r := if cfg.threshold = 0 then startDrag cfg pos s else (s, [])
  (⟨r.1.dragStarted, pos, r.1.dragItems⟩, r.2)

/-- The pending half of eventDrag (useDrag.ts lines 212-220): while
pending, start the drag once the travelled distance exceeds the
threshold. -/
def eventDragPhase1 (cfg : DragConfig) (pos : XYPosition) (s : DragState) :
    DragState × List DragCB :=
  if s.dragStarted = false then
    if d2 pos s.lastPos > cfg.threshold * cfg.threshold then startDrag cfg pos s else (s, [])
  else (s, [])

/-- eventDrag (useDrag.ts lines 204-229): the pending phase above, then,
on an actual movement with a nonempty item set and the drag started, run
updateNodes. -/
def eventDrag (cfg : DragConfig) (pos : XYPosition) (s : DragState) :
    DragState × List DragCB :=
  let r := eventDragPhase1 cfg pos s
  if r.1.lastPos ≠ pos ∧ r.1.dragItems ≠ [] ∧ r.1.dragStarted = true then
    let u := updateNodes pos r.1
    (u.1, r.2 ++ u.2)
  else r

/-- eventEnd (useDrag.ts lines 231-264): a release while pending fires the
click callback only for a nonzero travelled distance within the
threshold; a release while dragging clears the flag and fires the stop
callback when the item set is nonempty. -/
def eventEnd (cfg : DragConfig) (pos : XYPosition) (s : DragState) :
    DragState × List DragCB :=
  if s.dragStarted = false then
    (s,
      if d2 pos s.lastPos ≠ 0 ∧ d2 pos s.lastPos ≤ cfg.threshold * cfg.threshold then
        [DragCB.click]
      else [])
  else
    (⟨false, s.lastPos, s.dragItems⟩, if s.dragItems = [] then [] else [DragCB.stop])

def dragStep (cfg : DragConfig) (s : DragState) : DragEv → DragState × List DragCB
  | .down p => eventStart cfg p s
  | .move p => eventDrag cfg p s
  | .up p => eventEnd cfg p s

def runDrag (cfg : DragConfig) : DragState → List DragEv → DragState × List DragCB
  | s, [] => (s, [])
  | s, ev :: evs =>
    let r1 := dragStep cfg s ev
    let r2 := runDrag cfg r1.1 evs
    (r2.1, r1.2 ++ r2.2)

def initDragState : DragState := ⟨false, ⟨0, 0⟩, []⟩

/-- A single drag item pinned at the origin. -/
def itemA : DragItem := ⟨⟨0, 0⟩, ⟨0, 0⟩, ((0, 0), (0, 0))⟩

/-- A configuration with drag threshold 5 and one draggable item. -/
def cfg0 : DragConfig := ⟨5, fun _ => [itemA]⟩

def isDragCB : DragCB → Bool
  | .drag => true
  | _ => false

/-- The emissions strictly before the first drag-progress callback. -/
def beforeFirstDrag (l : List DragCB) : List DragCB :=
  l.takeWhile (fun c => !isDragCB c)

/-- Whenever a drag-progress callback is emitted, a drag-start callback
was emitted strictly before the first one. -/
def startBeforeFirstDrag (l : List DragCB) : Prop :=
  DragCB.drag ∈ l → DragCB.start ∈ beforeFirstDrag l

/-- Invariant tying the machine state to the emissions so far. -/
def dragInv (s : DragState) (l : List DragCB) : Prop :=
  startBeforeFirstDrag l ∧ (s.dragStarted = true → s.dragItems ≠ [] → DragCB.start ∈ l)

/-! ## Theorems -/

/-! ### C1: getOutgoers / getIncomers -/

/-- C1: the claim states that getIncomers(n, els) returns the nodes whose
id is the source of an edge whose target is n.id.  The code filters edges
by source for both directions, so the incomer of b over the edge a -> b is
missed entirely (getOutgoers, by contrast, behaves as claimed on this
input). -/
theorem getIncomers_filters_by_source :
    getIncomers ⟨"b"⟩ [.node ⟨"a"⟩, .node ⟨"b"⟩, .edge ⟨"e1", "a", "b", none, none, none⟩] = []
    ∧ getOutgoers ⟨"a"⟩ [.node ⟨"a"⟩, .node ⟨"b"⟩, .edge ⟨"e1", "a", "b", none, none, none⟩]
      = [.node ⟨"b"⟩] :=
  ⟨rfl, rfl⟩

/-! ### C2: addEdge -/

/-- C2: the claim states that a fresh connection is appended exactly once.
Evaluating addEdge on the empty collection shows the new edge is appended
twice: the collection is first mutated by push and the returned spread
appends the edge again. -/
theorem addEdge_appends_twice :
    addEdge (.conn ⟨"a", "b", none, none⟩) [] =
      ([.edge ⟨"vueflow__edge-aundefined-bundefined", "a", "b", none, none, none⟩,
        .edge ⟨"vueflow__edge-aundefined-bundefined", "a", "b", none, none, none⟩], false) :=
  rfl

/-! ### C3: updateEdge -/

/-- C3: the claim states that exactly one edge with the new endpoints
exists afterwards.  Evaluating updateEdge on a one-edge collection shows
the new edge present twice: once from the in-place splice and once from
the concat.  The old id is gone and non-endpoint fields (label) are kept,
but on both copies. -/
theorem updateEdge_leaves_two_new_edges :
    updateEdge ⟨"e1", "a", "b", none, none, some "L"⟩ ⟨"x", "y", none, none⟩
      [.edge ⟨"e1", "a", "b", none, none, some "L"⟩] =
      ([.edge ⟨"vueflow__edge-xundefined-yundefined", "x", "y", none, none, some "L"⟩,
        .edge ⟨"vueflow__edge-xundefined-yundefined", "x", "y", none, none, some "L"⟩], false) :=
  rfl

/-! ### C9: soft failure paths of addEdge / updateEdge -/

theorem findEdgeIdx_eq_none (oldId : String) (els : List Element)
    (h : ∀ e ∈ els, isEdge e = true → elemId e ≠ oldId) : findEdgeIdx oldId els = none := by
  induction els with
  | nil => rfl
  | cons e rest ih =>
    have he : (isEdge e && elemId e == oldId) = false := by
      cases hEdge : isEdge e with
      | false => simp
      | true =>
        simp only [Bool.true_and]
        exact beq_eq_false_iff_ne.mpr (h e (by simp) hEdge)
    simp only [findEdgeIdx, he, if_false]
    rw [ih (fun x hx hEdge => h x (by simp [hx]) hEdge)]
    rfl

/-- C9: a connection missing its source or target makes addEdge and
updateEdge report a diagnostic and return the input collection unmodified,
and so does an updateEdge whose old edge id is not found among the edges
of the collection. -/
theorem edgeOps_fail_soft :
    (∀ (ep : EdgeParam) (els : List Element), ep.source = "" ∨ ep.target = "" →
      addEdge ep els = (els, true)) ∧
    (∀ (o : Edge) (c : Connection) (els : List Element), c.source = "" ∨ c.target = "" →
      updateEdge o c els = (els, true)) ∧
    (∀ (o : Edge) (c : Connection) (els : List Element), c.source ≠ "" → c.target ≠ "" →
      (∀ e ∈ els, isEdge e = true → elemId e ≠ o.id) → updateEdge o c els = (els, true)) := by
  refine ⟨fun ep els h => ?_, fun o c els h => ?_, fun o c els hs ht h => ?_⟩
  · unfold addEdge
    rw [if_pos h]
  · unfold updateEdge
    rw [if_pos h]
  · unfold updateEdge
    rw [if_neg (by push_neg; exact ⟨hs, ht⟩), findEdgeIdx_eq_none o.id els h]

/-- Witness for C9 at concrete inputs. -/
theorem edgeOps_fail_soft_witness :
    addEdge (.conn ⟨"", "b", none, none⟩) [] = ([], true) ∧
    updateEdge ⟨"e", "a", "b", none, none, none⟩ ⟨"x", "", none, none⟩ [] = ([], true) ∧
    updateEdge ⟨"zz", "a", "b", none, none, none⟩ ⟨"x", "y", none, none⟩
      [.node ⟨"n"⟩] = ([.node ⟨"n"⟩], true) :=
  ⟨edgeOps_fail_soft.1 _ _ (Or.inl rfl),
   edgeOps_fail_soft.2.1 _ _ _ (Or.inr rfl),
   edgeOps_fail_soft.2.2 _ _ _ (by decide) (by decide) (by decide)⟩

/-! ### C5: removeElements -/

/-- Erasing an element that the predicate marks for removal does not
change the filtered survivors. -/
theorem filter_eraseIdx_of_pred (p : Element → Bool) (arr : List Element) :
    ∀ (k : Nat) (h : k < arr.length), p arr[k] = true →
      (arr.eraseIdx k).filter (fun a => !p a) = arr.filter (fun a => !p a) := by
  induction arr with
  | nil => intro k h; simp at h
  | cons a t ih =>
    intro k h hp
    cases k with
    | zero =>
      simp only [List.getElem_cons_zero] at hp
      simp [List.eraseIdx, List.filter_cons, hp]
    | succ k =>
      simp only [List.getElem_cons_succ] at hp
      simp only [List.eraseIdx, List.filter_cons]
      rw [ih k (by simpa using h) hp]

/-- The forEach/splice loop only removes elements the predicate marks, so
the filtered survivors are unchanged by it. -/
theorem filter_forEachSplice (p : Element → Bool) :
    ∀ (n k : Nat) (arr : List Element),
      (forEachSplice p n k arr).filter (fun a => !p a) = arr.filter (fun a => !p a) := by
  intro n
  induction n with
  | zero => intro k arr; rfl
  | succ n ih =>
    intro k arr
    unfold forEachSplice
    by_cases h : k < arr.length
    · rw [dif_pos h]
      cases hp : p arr[k] with
      | true =>
        rw [if_pos rfl, ih, filter_eraseIdx_of_pred p arr k h hp]
      | false =>
        rw [if_neg (by simp), ih]
    · rw [dif_neg h, ih]

/-- Pointwise agreement of the survivor predicate with the claim's
predicate, valid as soon as the removal id set has no empty-string id. -/
theorem shouldRemove_spec (ids : List String) (hid : ids.contains "" = false) (e : Element) :
    (!shouldRemoveFn ids e) = specKeep ids e := by
  cases e with
  | node n =>
    simp only [shouldRemoveFn, specKeep, elemId, hid]
    cases hc : ids.contains n.id <;> rfl
  | edge ed =>
    simp only [shouldRemoveFn, specKeep, elemId]
    cases ids.contains ed.id <;> cases ids.contains ed.source <;>
      cases ids.contains ed.target <;> rfl

/-- C5 counterexample: the claim quantifies over every removal list, but a
removal element with the empty-string id removes every node (a node is
destructured with empty-string sentinel source/target), so the node a is
removed although its id is not in the removal set and it is not an edge. -/
theorem removeElements_empty_id_counterexample :
    removeElements [.node ⟨""⟩] [.node ⟨"a"⟩] = [] ∧
    specRemoveElements [.node ⟨""⟩] [.node ⟨"a"⟩] = [.node ⟨"a"⟩] :=
  ⟨rfl, rfl⟩

/-- C5 (amended): provided no element of the removal list has the
empty-string id, removeElements returns exactly the elements whose id is
not in the removal id set and that are not edges with source or target in
that set, and every returned element is an element of the input
collection (no surviving element is replaced). -/
theorem removeElements_spec (elementsToRemove elements : List Element)
    (h : ("" : String) ∉ elementsToRemove.map elemId) :
    removeElements elementsToRemove elements = specRemoveElements elementsToRemove elements ∧
    ∀ e ∈ removeElements elementsToRemove elements, e ∈ elements := by
  have hid : (elementsToRemove.map elemId).contains "" = false := by
    rw [Bool.eq_false_iff]
    intro hc
    exact h (List.elem_iff.mp hc)
  have hfun : (fun a => !shouldRemoveFn (elementsToRemove.map elemId) a)
      = specKeep (elementsToRemove.map elemId) :=
    funext (shouldRemove_spec _ hid)
  have heq : removeElements elementsToRemove elements
      = specRemoveElements elementsToRemove elements := by
    simp only [removeElements, specRemoveElements]
    rw [filter_forEachSplice, hfun]
  refine ⟨heq, fun e he => ?_⟩
  rw [heq] at he
  exact (List.mem_filter.mp he).1

/-- Witness for C5 at a concrete cascade: removing node a removes it and
its incident edge and nothing else. -/
theorem removeElements_spec_witness :
    removeElements [.node ⟨"a"⟩]
        [.node ⟨"a"⟩, .node ⟨"b"⟩, .edge ⟨"e1", "a", "b", none, none, none⟩,
         .edge ⟨"e2", "b", "c", none, none, none⟩]
      = specRemoveElements [.node ⟨"a"⟩]
        [.node ⟨"a"⟩, .node ⟨"b"⟩, .edge ⟨"e1", "a", "b", none, none, none⟩,
         .edge ⟨"e2", "b", "c", none, none, none⟩] ∧
    specRemoveElements [.node ⟨"a"⟩]
        [.node ⟨"a"⟩, .node ⟨"b"⟩, .edge ⟨"e1", "a", "b", none, none, none⟩,
         .edge ⟨"e2", "b", "c", none, none, none⟩]
      = [.node ⟨"b"⟩, .edge ⟨"e2", "b", "c", none, none, none⟩] :=
  ⟨(removeElements_spec _ _ (by decide)).1, rfl⟩

/-! ### C10: getRectOfNodes on the empty list -/

/-- C10: getRectOfNodes on the empty node list returns the rect conversion
of the union identity box: x and y are positive infinity, width and height
negative infinity (negInf - posInf = negInf), not a meaningful
rectangle. -/
theorem getRectOfNodes_nil :
    getRectOfNodes [] = ⟨.posInf, .posInf, .negInf, .negInf⟩ ∧
    getRectOfNodes [] = boxToRect ⟨ENum.posInf, ENum.posInf, ENum.negInf, ENum.negInf⟩ :=
  ⟨rfl, rfl⟩

/-! ### C8: getTransformForBounds -/

/-- C8: the fitted zoom is the padded min-ratio clamped into
[minZoom, maxZoom], and the translate maps the bounds center onto
the viewport center plus the pixel offset; at the concrete example the
zoom clamps to 2 and the transform centers the bounds. -/
theorem getTransformForBounds_spec (bounds : Rect ℚ)
    (width height minZoom maxZoom padding : ℚ) (offset : Option ℚ × Option ℚ)
    (hw : 0 < bounds.width) (hh : 0 < bounds.height) :
    (getTransformForBounds bounds width height minZoom maxZoom padding offset).zoom
      = clamp (min (width / (bounds.width * (1 + padding)))
          (height / (bounds.height * (1 + padding)))) minZoom maxZoom ∧
    graphPosToZoomedPos ⟨bounds.x + bounds.width / 2, bounds.y + bounds.height / 2⟩
        (getTransformForBounds bounds width height minZoom maxZoom padding offset)
      = ⟨width / 2 + offset.1.getD 0, height / 2 + offset.2.getD 0⟩ ∧
    getTransformForBounds ⟨0, 0, 100, 100⟩ 1000 1000 (1 / 10) 2 (1 / 10) (some 0, some 0)
      = ⟨400, 400, 2⟩ ∧
    graphPosToZoomedPos ⟨50, 50⟩
        (getTransformForBounds ⟨0, 0, 100, 100⟩ 1000 1000 (1 / 10) 2 (1 / 10) (some 0, some 0))
      = ⟨500, 500⟩ := by
  refine ⟨rfl, ?_, ?_, ?_⟩
  · simp only [getTransformForBounds, graphPosToZoomedPos, XYPosition.mk.injEq]
    constructor <;> ring
  · norm_num [getTransformForBounds, clamp, min_def, max_def, Transform.mk.injEq]
  · norm_num [getTransformForBounds, graphPosToZoomedPos, clamp, min_def, max_def,
      XYPosition.mk.injEq]

/-- Witness for C8 at the concrete bounds of the example. -/
theorem getTransformForBounds_spec_witness :
    (0 : ℚ) < 100 ∧
    (getTransformForBounds ⟨0, 0, 100, 100⟩ 1000 1000 (1 / 10) 2 (1 / 10)
        (some 0, some 0)).zoom
      = clamp (min (1000 / (100 * (1 + 1 / 10))) (1000 / (100 * (1 + 1 / 10)))) (1 / 10) 2 :=
  ⟨by norm_num,
   (getTransformForBounds_spec ⟨0, 0, 100, 100⟩ 1000 1000 (1 / 10) 2 (1 / 10)
      (some 0, some 0) (by norm_num) (by norm_num)).1⟩

/-! ### C4: nested position and stacking resolution -/

theorem calculateXYZPosition_x (n : PNode) :
    ∀ r : XYZPosition, (calculateXYZPosition n r).x = r.x + ancSumX n := by
  induction n with
  | root x y z => intro r; simp [calculateXYZPosition, ancSumX]
  | child x y z p ih =>
    intro r
    simp only [calculateXYZPosition, ancSumX]
    rw [ih]
    ring

theorem calculateXYZPosition_y (n : PNode) :
    ∀ r : XYZPosition, (calculateXYZPosition n r).y = r.y + ancSumY n := by
  induction n with
  | root x y z => intro r; simp [calculateXYZPosition, ancSumY]
  | child x y z p ih =>
    intro r
    simp only [calculateXYZPosition, ancSumY]
    rw [ih]
    ring

/-- C4 counterexample: the claim's stacking rule is
max(parentAbs.z + 1, own z), but the code uses a strict comparison of the
declared indices: with parent and child both declaring index 3, the code
resolves the child to 3 while the claimed formula gives 4. -/
theorem resolveXYZ_tie_counterexample :
    (resolveXYZ (.child 5 5 3 (.root 10 10 3))).z
      ≠ max ((resolveXYZ (.root 10 10 3)).z + 1) (3 : ℚ) := by
  have h1 : resolveXYZ (.child 5 5 3 (.root 10 10 3)) = ⟨15, 15, 3⟩ := by
    norm_num [resolveXYZ, calculateXYZPosition, PNode.posX, PNode.posY, PNode.z,
      XYZPosition.mk.injEq]
  have h2 : resolveXYZ (.root 10 10 3) = ⟨10, 10, 3⟩ := rfl
  rw [h1, h2]
  show (3 : ℚ) ≠ max (3 + 1) 3
  rw [max_eq_left (by norm_num : (3 : ℚ) ≤ 3 + 1)]
  norm_num

/-- C4 (amended): the resolved absolute position is the local position
plus the parent's resolved absolute position; the resolved stacking index
compares declared indices strictly: for a node whose parent is a root it
is parent.z + 1 when parent.z is strictly greater than the node's declared
z, otherwise the node's own declared z (so a tie keeps the child's own
index); the spec's example (parent 3, child 1) still resolves to 4. -/
theorem resolveXYZ_spec (x y z : ℚ) (p : PNode) :
    (resolveXYZ (.child x y z p)).x = x + (resolveXYZ p).x ∧
    (resolveXYZ (.child x y z p)).y = y + (resolveXYZ p).y ∧
    (∀ px py pz : ℚ, p = .root px py pz →
      (resolveXYZ (.child x y z p)).z = if pz > z then pz + 1 else z) ∧
    resolveXYZ (.child 5 5 1 (.root 10 10 3)) = ⟨15, 15, 4⟩ := by
  refine ⟨?_, ?_, ?_, by
    norm_num [resolveXYZ, calculateXYZPosition, PNode.posX, PNode.posY, PNode.z,
      XYZPosition.mk.injEq]⟩
  · simp only [resolveXYZ, PNode.posX, PNode.posY, PNode.z]
    rw [calculateXYZPosition_x, calculateXYZPosition_x]
    simp [ancSumX]
    cases p <;> rfl
  · simp only [resolveXYZ, PNode.posX, PNode.posY, PNode.z]
    rw [calculateXYZPosition_y, calculateXYZPosition_y]
    simp [ancSumY]
    cases p <;> rfl
  · intro px py pz hp
    subst hp
    simp [resolveXYZ, calculateXYZPosition, PNode.posX, PNode.posY, PNode.z]

/-- Witness for C4 at concrete nodes (tie case and additivity). -/
theorem resolveXYZ_spec_witness :
    (resolveXYZ (.child 5 5 3 (.root 10 10 3))).x = 5 + (resolveXYZ (.root 10 10 3)).x ∧
    (resolveXYZ (.child 5 5 3 (.root 10 10 3))).z = if (3 : ℚ) > 3 then 3 + 1 else 3 :=
  ⟨(resolveXYZ_spec 5 5 3 (.root 10 10 3)).1,
   (resolveXYZ_spec 5 5 3 (.root 10 10 3)).2.2.1 10 10 3 rfl⟩

/-! ### C6: getNodesInside -/

/-- For a selectable node with known dimensions that is not being dragged,
the filter body reduces to the ceiled-overlap comparisons. -/
theorem insidePred_known (rBox : Box ℚ) (pb : Bool) (n : GNode)
    (hsel : n.selectable ≠ some false)
    (hko : ¬(n.dimW = none ∨ n.dimH = none ∨ n.dragging = true)) :
    insidePred rBox pb n =
      if pb = true then
        decide ((((⌈max 0 (min rBox.x2 (nodeBoxQ n).x2 - max rBox.x (nodeBoxQ n).x) *
          max 0 (min rBox.y2 (nodeBoxQ n).y2 - max rBox.y (nodeBoxQ n).y)⌉ : ℤ) : ℚ)) > 0)
      else
        decide ((((⌈max 0 (min rBox.x2 (nodeBoxQ n).x2 - max rBox.x (nodeBoxQ n).x) *
          max 0 (min rBox.y2 (nodeBoxQ n).y2 - max rBox.y (nodeBoxQ n).y)⌉ : ℤ) : ℚ))
          ≥ nullNum n.dimW * nullNum n.dimH) := by
  simp only [insidePred, if_neg hsel, if_neg hko]

theorem ceil_cast_pos_iff (q : ℚ) : (((⌈q⌉ : ℤ) : ℚ) > 0) ↔ 0 < q := by
  constructor
  · intro hq
    exact Int.ceil_pos.mp (by exact_mod_cast hq)
  · intro hq
    exact_mod_cast Int.ceil_pos.mpr hq

/-- C6 counterexample: a selectable 1-by-1 node half covered by the query
rect has overlap area 1/2, not equal to its area 1, yet partial=false
still includes it, because the code ceils the overlap area before
comparing (ceil(1/2) = 1 is at least 1). -/
theorem getNodesInside_ceil_counterexample :
    getNodesInside [⟨"n", 0, 0, some 1, some 1, none, false⟩] ⟨0, 0, 1 / 2, 1⟩ ⟨0, 0, 1⟩ false
      = [⟨"n", 0, 0, some 1, some 1, none, false⟩] ∧
    specOverlapArea ⟨"n", 0, 0, some 1, some 1, none, false⟩ ⟨0, 0, 1 / 2, 1⟩ ⟨0, 0, 1⟩
      ≠ 1 * 1 := by
  have ho : specOverlapArea ⟨"n", 0, 0, some 1, some 1, none, false⟩ ⟨0, 0, 1 / 2, 1⟩ ⟨0, 0, 1⟩
      = 1 / 2 := by
    norm_num [specOverlapArea, worldRBox, nodeBoxQ, rectToBox, nullNum, min_def, max_def]
  have hceil : (⌈(1 / 2 : ℚ)⌉ : ℤ) = 1 := by
    rw [Int.ceil_eq_iff] <;> norm_num
  constructor
  · have hp : insidePred (worldRBox ⟨0, 0, 1 / 2, 1⟩ ⟨0, 0, 1⟩) false
        ⟨"n", 0, 0, some 1, some 1, none, false⟩ = true := by
      rw [insidePred_known _ _ _ (by simp) (by simp)]
      rw [if_neg Bool.false_ne_true]
      have harg : max 0 (min (worldRBox ⟨0, 0, 1 / 2, 1⟩ ⟨0, 0, 1⟩).x2
            (nodeBoxQ ⟨"n", 0, 0, some 1, some 1, none, false⟩).x2
            - max (worldRBox ⟨0, 0, 1 / 2, 1⟩ ⟨0, 0, 1⟩).x
            (nodeBoxQ ⟨"n", 0, 0, some 1, some 1, none, false⟩).x) *
          max 0 (min (worldRBox ⟨0, 0, 1 / 2, 1⟩ ⟨0, 0, 1⟩).y2
            (nodeBoxQ ⟨"n", 0, 0, some 1, some 1, none, false⟩).y2
            - max (worldRBox ⟨0, 0, 1 / 2, 1⟩ ⟨0, 0, 1⟩).y
            (nodeBoxQ ⟨"n", 0, 0, some 1, some 1, none, false⟩).y) = 1 / 2 := by
        norm_num [worldRBox, nodeBoxQ, rectToBox, nullNum, min_def, max_def]
      rw [harg, hceil]
      norm_num [nullNum]
    simp only [getNodesInside]
    rw [List.filter_cons, hp, if_pos rfl]
    rfl
  · rw [ho]
    norm_num

/-- C6 (amended): for a selectable, non-dragging node with known
dimensions, membership with partial=false holds iff the ceiling of the
overlap area is at least the node's area (the claimed equality with the
full area fails because of the ceiling), and with partial=true iff the
overlap area is positive; a selectable node with an unknown dimension or
currently dragging is always included. -/
theorem getNodesInside_spec (nodes : List GNode) (n : GNode) (rect : Rect ℚ) (t : Transform)
    (w h : ℚ) (hsel : n.selectable ≠ some false) (hw : n.dimW = some w) (hh : n.dimH = some h)
    (hd : n.dragging = false) :
    (n ∈ getNodesInside nodes rect t false ↔
      n ∈ nodes ∧ (((⌈specOverlapArea n rect t⌉ : ℤ) : ℚ) ≥ w * h)) ∧
    (n ∈ getNodesInside nodes rect t true ↔ n ∈ nodes ∧ 0 < specOverlapArea n rect t) ∧
    (∀ m ∈ nodes, m.selectable ≠ some false →
      (m.dimW = none ∨ m.dimH = none ∨ m.dragging = true) →
      m ∈ getNodesInside nodes rect t false ∧ m ∈ getNodesInside nodes rect t true) := by
  have hko : ¬(n.dimW = none ∨ n.dimH = none ∨ n.dragging = true) := by simp [hw, hh, hd]
  have hs : specOverlapArea n rect t
      = max 0 (min (worldRBox rect t).x2 (nodeBoxQ n).x2
          - max (worldRBox rect t).x (nodeBoxQ n).x) *
        max 0 (min (worldRBox rect t).y2 (nodeBoxQ n).y2
          - max (worldRBox rect t).y (nodeBoxQ n).y) := rfl
  refine ⟨?_, ?_, ?_⟩
  · simp only [getNodesInside]
    rw [List.mem_filter, insidePred_known _ _ _ hsel hko, if_neg Bool.false_ne_true, ← hs,
      hw, hh]
    simp [nullNum]
  · simp only [getNodesInside]
    rw [List.mem_filter, insidePred_known _ _ _ hsel hko, if_pos rfl, ← hs]
    simp only [decide_eq_true_eq, ceil_cast_pos_iff]
  · intro m hm hmsel hmud
    have hmp : ∀ pb, insidePred (worldRBox rect t) pb m = true := by
      intro pb
      simp only [insidePred]
      rw [if_neg hmsel, if_pos hmud]
    exact ⟨by simp only [getNodesInside]; exact List.mem_filter.mpr ⟨hm, hmp false⟩,
      by simp only [getNodesInside]; exact List.mem_filter.mpr ⟨hm, hmp true⟩⟩

/-- Witness for C6 at a fully contained 2-by-2 node. -/
theorem getNodesInside_spec_witness :
    (⟨"m", 0, 0, some 2, some 2, none, false⟩ : GNode)
        ∈ getNodesInside [⟨"m", 0, 0, some 2, some 2, none, false⟩] ⟨0, 0, 4, 4⟩ ⟨0, 0, 1⟩ false ∧
    (⟨"m", 0, 0, some 2, some 2, none, false⟩ : GNode)
        ∈ getNodesInside [⟨"m", 0, 0, some 2, some 2, none, false⟩] ⟨0, 0, 4, 4⟩ ⟨0, 0, 1⟩ true := by
  have hspec := getNodesInside_spec [⟨"m", 0, 0, some 2, some 2, none, false⟩]
    ⟨"m", 0, 0, some 2, some 2, none, false⟩ ⟨0, 0, 4, 4⟩ ⟨0, 0, 1⟩ 2 2
    (by simp) rfl rfl rfl
  have ho : specOverlapArea ⟨"m", 0, 0, some 2, some 2, none, false⟩ ⟨0, 0, 4, 4⟩ ⟨0, 0, 1⟩
      = 4 := by
    norm_num [specOverlapArea, worldRBox, nodeBoxQ, rectToBox, nullNum, min_def, max_def]
  refine ⟨hspec.1.mpr ⟨List.mem_singleton_self _, ?_⟩,
    hspec.2.1.mpr ⟨List.mem_singleton_self _, ?_⟩⟩
  · rw [ho]
    have : (⌈(4 : ℚ)⌉ : ℤ) = 4 := by
      rw [Int.ceil_eq_iff] <;> norm_num
    rw [this]
    norm_num
  · rw [ho]
    norm_num

/-! ### C7: drag threshold state machine -/

theorem beforeFirstDrag_cons_nondrag {a : DragCB} (ha : isDragCB a = false) (l : List DragCB) :
    beforeFirstDrag (a :: l) = a :: beforeFirstDrag l := by
  simp [beforeFirstDrag, List.takeWhile_cons, ha]

theorem beforeFirstDrag_cons_drag (l : List DragCB) :
    beforeFirstDrag (DragCB.drag :: l) = [] := by
  simp [beforeFirstDrag, List.takeWhile_cons, isDragCB]

theorem beforeFirstDrag_append_of_mem {l : List DragCB} (h : DragCB.drag ∈ l)
    (m : List DragCB) : beforeFirstDrag (l ++ m) = beforeFirstDrag l := by
  induction l with
  | nil => cases h
  | cons a t ih =>
    cases ha : isDragCB a with
    | true =>
      have haa : a = DragCB.drag := by
        cases a
        · simp [isDragCB] at ha
        · simp [isDragCB] at ha
        · rfl
        · simp [isDragCB] at ha
      subst haa
      rw [List.cons_append, beforeFirstDrag_cons_drag, beforeFirstDrag_cons_drag]
    | false =>
      have ht : DragCB.drag ∈ t := by
        rcases List.mem_cons.mp h with hx | hx
        · rw [← hx] at ha
          simp [isDragCB] at ha
        · exact hx
      rw [List.cons_append, beforeFirstDrag_cons_nondrag ha, beforeFirstDrag_cons_nondrag ha,
        ih ht]

theorem beforeFirstDrag_append_of_not_mem {l : List DragCB} (h : DragCB.drag ∉ l)
    (m : List DragCB) : beforeFirstDrag (l ++ m) = l ++ beforeFirstDrag m := by
  induction l with
  | nil => simp
  | cons a t ih =>
    have ha : isDragCB a = false := by
      cases a
      · rfl
      · rfl
      · exact absurd (List.mem_cons_self _ _) h
      · rfl
    have ht : DragCB.drag ∉ t := fun hx => h (List.mem_cons_of_mem _ hx)
    rw [List.cons_append, beforeFirstDrag_cons_nondrag ha, ih ht, List.cons_append]

theorem startBeforeFirstDrag_nil : startBeforeFirstDrag [] :=
  fun h => absurd h (List.not_mem_nil _)

theorem startBeforeFirstDrag_append_no_drag {l m : List DragCB}
    (hl : startBeforeFirstDrag l) (hm : DragCB.drag ∉ m) :
    startBeforeFirstDrag (l ++ m) := by
  intro hmem
  have hdl : DragCB.drag ∈ l := by
    rcases List.mem_append.mp hmem with hx | hx
    · exact hx
    · exact absurd hx hm
  rw [beforeFirstDrag_append_of_mem hdl]
  exact hl hdl

theorem startBeforeFirstDrag_append_start_mem {l m : List DragCB}
    (hl : startBeforeFirstDrag l) (hs : DragCB.start ∈ l) :
    startBeforeFirstDrag (l ++ m) := by
  intro _
  by_cases hdl : DragCB.drag ∈ l
  · rw [beforeFirstDrag_append_of_mem hdl]
    exact hl hdl
  · rw [beforeFirstDrag_append_of_not_mem hdl]
    exact List.mem_append_left _ hs

theorem startDrag_inv (cfg : DragConfig) (pos : XYPosition) (s : DragState)
    (l : List DragCB) (h : dragInv s l) :
    dragInv (startDrag cfg pos s).1 (l ++ (startDrag cfg pos s).2) := by
  by_cases hi : cfg.getItems pos = []
  · simp only [startDrag]
    rw [if_pos hi]
    refine ⟨by rw [List.append_nil]; exact h.1, fun _ hne => absurd hi hne⟩
  · simp only [startDrag]
    rw [if_neg hi]
    exact ⟨startBeforeFirstDrag_append_no_drag h.1 (by simp),
      fun _ _ => List.mem_append_right _ (by simp)⟩

theorem eventStart_inv (cfg : DragConfig) (pos : XYPosition) (s : DragState)
    (l : List DragCB) (h : dragInv s l) :
    dragInv (eventStart cfg pos s).1 (l ++ (eventStart cfg pos s).2) := by
  by_cases h0 : cfg.threshold = 0
  · have hsd := startDrag_inv cfg pos s l h
    simp only [eventStart]
    rw [if_pos h0]
    exact ⟨hsd.1, fun ha hb => hsd.2 ha hb⟩
  · simp only [eventStart]
    rw [if_neg h0]
    refine ⟨by rw [List.append_nil]; exact h.1, fun ha hb => ?_⟩
    rw [List.append_nil]
    exact h.2 ha hb

theorem eventEnd_inv (cfg : DragConfig) (pos : XYPosition) (s : DragState)
    (l : List DragCB) (h : dragInv s l) :
    dragInv (eventEnd cfg pos s).1 (l ++ (eventEnd cfg pos s).2) := by
  by_cases hds : s.dragStarted = false
  · simp only [eventEnd]
    rw [if_pos hds]
    by_cases hcl : d2 pos s.lastPos ≠ 0 ∧ d2 pos s.lastPos ≤ cfg.threshold * cfg.threshold
    · rw [if_pos hcl]
      exact ⟨startBeforeFirstDrag_append_no_drag h.1 (by simp),
        fun ha hb => List.mem_append_left _ (h.2 ha hb)⟩
    · rw [if_neg hcl]
      exact ⟨by rw [List.append_nil]; exact h.1,
        fun ha hb => by rw [List.append_nil]; exact h.2 ha hb⟩
  · simp only [eventEnd]
    rw [if_neg hds]
    by_cases hi : s.dragItems = []
    · rw [if_pos hi]
      exact ⟨by rw [List.append_nil]; exact h.1, fun _ hb => absurd hi hb⟩
    · rw [if_neg hi]
      refine ⟨startBeforeFirstDrag_append_no_drag h.1 (by simp), fun ha _ => ?_⟩
      simp at ha

theorem eventDragPhase1_inv (cfg : DragConfig) (pos : XYPosition) (s : DragState)
    (l : List DragCB) (h : dragInv s l) :
    dragInv (eventDragPhase1 cfg pos s).1 (l ++ (eventDragPhase1 cfg pos s).2) := by
  unfold eventDragPhase1
  by_cases hds : s.dragStarted = false
  · rw [if_pos hds]
    by_cases hth : d2 pos s.lastPos > cfg.threshold * cfg.threshold
    · rw [if_pos hth]
      exact startDrag_inv cfg pos s l h
    · rw [if_neg hth]
      show dragInv s (l ++ [])
      rw [List.append_nil]
      exact h
  · rw [if_neg hds]
    show dragInv s (l ++ [])
    rw [List.append_nil]
    exact h

theorem eventDrag_inv (cfg : DragConfig) (pos : XYPosition) (s : DragState)
    (l : List DragCB) (h : dragInv s l) :
    dragInv (eventDrag cfg pos s).1 (l ++ (eventDrag cfg pos s).2) := by
  have h1 := eventDragPhase1_inv cfg pos s l h
  unfold eventDrag
  by_cases hg : (eventDragPhase1 cfg pos s).1.lastPos ≠ pos ∧
      (eventDragPhase1 cfg pos s).1.dragItems ≠ [] ∧
      (eventDragPhase1 cfg pos s).1.dragStarted = true
  · rw [if_pos hg]
    have hstart : DragCB.start ∈ l ++ (eventDragPhase1 cfg pos s).2 := h1.2 hg.2.2 hg.2.1
    show dragInv (updateNodes pos (eventDragPhase1 cfg pos s).1).1
      (l ++ ((eventDragPhase1 cfg pos s).2 ++ (updateNodes pos (eventDragPhase1 cfg pos s).1).2))
    have hu : (updateNodes pos (eventDragPhase1 cfg pos s).1).2 = [] ∨
        (updateNodes pos (eventDragPhase1 cfg pos s).1).2 = [DragCB.drag] := by
      simp only [updateNodes]
      split
      · exact Or.inr rfl
      · exact Or.inl rfl
    constructor
    · rw [← List.append_assoc]
      rcases hu with hu | hu
      · rw [hu, List.append_nil]
        exact h1.1
      · rw [hu]
        exact startBeforeFirstDrag_append_start_mem h1.1 hstart
    · intro _ _
      rw [← List.append_assoc]
      exact List.mem_append_left _ hstart
  · rw [if_neg hg]
    exact h1

theorem dragStep_inv (cfg : DragConfig) (s : DragState) (ev : DragEv)
    (l : List DragCB) (h : dragInv s l) :
    dragInv (dragStep cfg s ev).1 (l ++ (dragStep cfg s ev).2) := by
  cases ev with
  | down p => exact eventStart_inv cfg p s l h
  | move p => exact eventDrag_inv cfg p s l h
  | up p => exact eventEnd_inv cfg p s l h

theorem runDrag_inv (cfg : DragConfig) :
    ∀ (evs : List DragEv) (s : DragState) (l : List DragCB), dragInv s l →
      dragInv (runDrag cfg s evs).1 (l ++ (runDrag cfg s evs).2) := by
  intro evs
  induction evs with
  | nil =>
    intro s l h
    show dragInv s (l ++ [])
    rw [List.append_nil]
    exact h
  | cons ev evs ih =>
    intro s l h
    have h1 := dragStep_inv cfg s ev l h
    have h2 := ih (dragStep cfg s ev).1 (l ++ (dragStep cfg s ev).2) h1
    show dragInv (runDrag cfg (dragStep cfg s ev).1 evs).1
      (l ++ ((dragStep cfg s ev).2 ++ (runDrag cfg (dragStep cfg s ev).1 evs).2))
    rw [← List.append_assoc]
    exact h2

theorem runDrag_startBeforeFirstDrag (cfg : DragConfig) (evs : List DragEv) :
    startBeforeFirstDrag (runDrag cfg initDragState evs).2 := by
  have h := runDrag_inv cfg evs initDragState []
    ⟨startBeforeFirstDrag_nil, fun ha _ => absurd ha (by decide)⟩
  have h1 := h.1
  rwa [List.nil_append] at h1

theorem runDrag_append (cfg : DragConfig) (l1 l2 : List DragEv) :
    ∀ s : DragState, runDrag cfg s (l1 ++ l2)
      = ((runDrag cfg (runDrag cfg s l1).1 l2).1,
         (runDrag cfg s l1).2 ++ (runDrag cfg (runDrag cfg s l1).1 l2).2) := by
  induction l1 with
  | nil => intro s; simp [runDrag]
  | cons e t ih =>
    intro s
    simp only [List.cons_append, runDrag]
    rw [List.append_eq, ih]
    simp [List.append_assoc]

theorem runDrag_pending_moves (cfg : DragConfig) (p0 : XYPosition) (moves : List XYPosition)
    (hm : ∀ q ∈ moves, d2 q p0 ≤ cfg.threshold * cfg.threshold) :
    runDrag cfg ⟨false, p0, []⟩ (moves.map .move) = (⟨false, p0, []⟩, []) := by
  induction moves with
  | nil => rfl
  | cons q qs ih =>
    have hq : ¬(d2 q p0 > cfg.threshold * cfg.threshold) :=
      not_lt.mpr (hm q (List.mem_cons_self _ _))
    have hstep : eventDrag cfg q ⟨false, p0, []⟩ = (⟨false, p0, []⟩, []) := by
      simp [eventDrag, eventDragPhase1, hq]
    simp only [List.map_cons, runDrag, dragStep, hstep]
    rw [ih (fun x hx => hm x (List.mem_cons_of_mem _ hx))]
    rfl

/-- C7 counterexample: with threshold 5 and a draggable item, pressing and
releasing without any movement is a release while still pending with
travelled distance 0 (within the threshold), yet no click callback fires:
the code requires a nonzero travelled distance for the click. -/
theorem useDrag_zero_distance_counterexample :
    DragCB.click ∉ (runDrag cfg0 initDragState [.down ⟨0, 0⟩, .up ⟨0, 0⟩]).2 := by
  have h0 : eventStart cfg0 ⟨0, 0⟩ initDragState = (⟨false, ⟨0, 0⟩, []⟩, []) := by
    norm_num [eventStart, cfg0, initDragState]
  have hend : eventEnd cfg0 ⟨0, 0⟩ ⟨false, ⟨0, 0⟩, []⟩ = (⟨false, ⟨0, 0⟩, []⟩, []) := by
    norm_num [eventEnd, d2, cfg0]
  simp [runDrag, dragStep, h0, hend]

/-- C7 (amended): with a positive drag-start threshold, a release while
still pending after a nonzero travelled distance within the threshold
fires exactly the click callback, and no drag-start, drag-progress or
drag-stop callback; a release with no movement at all fires no callback;
and in every event sequence a drag-progress callback is always preceded
by a drag-start callback. -/
theorem useDrag_threshold_spec :
    (∀ (cfg : DragConfig) (p0 pe : XYPosition) (moves : List XYPosition),
      0 < cfg.threshold →
      (∀ q ∈ moves, d2 q p0 ≤ cfg.threshold * cfg.threshold) →
      d2 pe p0 ≠ 0 → d2 pe p0 ≤ cfg.threshold * cfg.threshold →
      (runDrag cfg initDragState (.down p0 :: (moves.map .move ++ [.up pe]))).2
        = [DragCB.click]) ∧
    (∀ (cfg : DragConfig) (evs : List DragEv),
      startBeforeFirstDrag (runDrag cfg initDragState evs).2) := by
  constructor
  · intro cfg p0 pe moves hth hmv hne hle
    have h0 : eventStart cfg p0 initDragState = (⟨false, p0, []⟩, []) := by
      simp [eventStart, initDragState, hth.ne']
    have hend : eventEnd cfg pe ⟨false, p0, []⟩ = (⟨false, p0, []⟩, [DragCB.click]) := by
      simp [eventEnd, hne, hle]
    have hpend := runDrag_pending_moves cfg p0 moves hmv
    simp only [runDrag, dragStep, h0]
    rw [runDrag_append, hpend]
    simp only [runDrag, dragStep, hend]
    rfl
  · intro cfg evs
    exact runDrag_startBeforeFirstDrag cfg evs

/-- Witness for C7: threshold 5, move 3 units, release there: exactly the
click callback fires. -/
theorem useDrag_threshold_spec_witness :
    (runDrag cfg0 initDragState [.down ⟨0, 0⟩, .move ⟨3, 0⟩, .up ⟨3, 0⟩]).2
      = [DragCB.click] := by
  have h := useDrag_threshold_spec.1 cfg0 ⟨0, 0⟩ ⟨3, 0⟩ [⟨3, 0⟩]
    (by norm_num [cfg0])
    (by
      intro q hq
      rw [List.mem_singleton.mp hq]
      norm_num [d2, cfg0])
    (by norm_num [d2])
    (by norm_num [d2, cfg0])
  simpa using h

end VF
